import Mathlib

/-!
Verification development for the ARNS migration workflow
(src/lib/arns-utils.ts and the form-level handler in the page component).

The embedding models strings as Lean strings and the regex matching that the
source performs on them as explicit scanning functions over lists of
characters (String.data).  External effects (the registry SDK, the ANT
contract calls, the injected wallet) are modelled as explicit oracle
parameters: a call that can throw is an Except value, a call whose failure is
swallowed is an Option value.  The NODE_ENV development fallback branches are
modelled by an explicit devMode flag.
-/

namespace ArnsUtils

/-- Character class of the regex character set [a-zA-Z0-9_-] used by every
pattern in the source. -/
def isIdChar (c : Char) : Bool :=
  (('a' ≤ c && c ≤ 'z') || ('A' ≤ c && c ≤ 'Z') || ('0' ≤ c && c ≤ '9')
    || c = '_' || c = '-')

/-- Consume exactly n characters of the id class from the front of the list,
returning the consumed run and the remainder; fails if the list is too short
or a character is outside the class.  Models the regex quantifier
[a-zA-Z0-9_-]{43} with n = 43. -/
def takeIdRun : Nat → List Char → Option (List Char × List Char)
  | 0, rest => some ([], rest)
  | _ + 1, [] => none
  | n + 1, c :: rest =>
    if isIdChar c then
      match takeIdRun n rest with
      | some (run, rem) => some (c :: run, rem)
      | none => none
    else none

/-- Consume the maximal (possibly empty) run of id-class characters from the
front of the list.  Models the greedy regex quantifier [a-zA-Z0-9_-]+ (whose
nonemptiness is checked separately); because the characters that follow the
run in every pattern of the source are outside the class, greedy matching
with backtracking coincides with taking the maximal run. -/
def takeMaxIdRun : List Char → List Char × List Char
  | [] => ([], [])
  | c :: rest =>
    if isIdChar c then
      match takeMaxIdRun rest with
      | (run, rem) => (c :: run, rem)
    else ([], c :: rest)

/-- Match a literal character sequence at the front of the list, returning
the remainder on success. -/
def matchLitAt : List Char → List Char → Option (List Char)
  | [], rest => some rest
  | _ :: _, [] => none
  | p :: ps, c :: cs => if c = p then matchLitAt ps cs else none

/-- Match, at the front of the list, a literal followed by exactly 43
id-class characters, returning the 43-character capture.  Models matching one
of the host-qualified patterns of extractTransactionId at a fixed position. -/
def matchHostPatAt (lit : List Char) (s : List Char) : Option (List Char) :=
  match matchLitAt lit s with
  | some rest =>
    match takeIdRun 43 rest with
    | some (run, _) => some run
    | none => none
  | none => none

/-- Leftmost unanchored match of a host-qualified pattern: try every
position from the left, first success wins.  Models the semantics of
url.match on the unanchored patterns of extractTransactionId. -/
def findHostPat (lit : List Char) : List Char → Option (List Char)
  | [] => none
  | c :: rest =>
    match matchHostPatAt lit (c :: rest) with
    | some run => some run
    | none => findHostPat lit rest

/-- Characters of the literal part of the first pattern of
extractTransactionId. -/
def litArweaveNet : List Char :=
  ['a', 'r', 'w', 'e', 'a', 'v', 'e', '.', 'n', 'e', 't', '/']

/-- Characters of the literal part of the second pattern of
extractTransactionId. -/
def litArIo : List Char := ['a', 'r', '.', 'i', 'o', '/']

/-- Model of the third pattern of extractTransactionId: an end-anchored
slash followed by exactly 43 id-class characters.  A match exists exactly
when the last 43 characters are id-class characters preceded by a slash;
scanning the reversal captures that. -/
def matchTrailing43 (s : List Char) : Option (List Char) :=
  match takeIdRun 43 s.reverse with
  | some (run, rest) =>
    match rest with
    | '/' :: _ => some run.reverse
    | _ => none
  | none => none

/-- Model of the regex used by migrateToArns to cut the transaction id out
of the supplied URL: an end-anchored slash followed by a nonempty run of
id-class characters, capturing the run.  A match exists exactly when the
maximal trailing run of id-class characters is nonempty and preceded by a
slash. -/
def trailingSegMatch (s : List Char) : Option (List Char) :=
  match takeMaxIdRun s.reverse with
  | (run, rest) =>
    if run.isEmpty then none
    else
      match rest with
      | '/' :: _ => some run.reverse
      | _ => none

/-- Model of isValidArweaveId from the source: the string matches an
anchored run of exactly 43 id-class characters. -/
def isValidArweaveId (id : List Char) : Bool :=
  id.length = 43 && id.all isIdChar

/-- Model of the loop body of extractTransactionId: walk the pattern list in
order; for each pattern, if it matches and the capture passes
isValidArweaveId, return the capture, otherwise continue with the next
pattern. -/
def firstValidMatch : List (List Char → Option (List Char)) → List Char →
    Option (List Char)
  | [], _ => none
  | p :: ps, url =>
    match p url with
    | some cap =>
      if isValidArweaveId cap then some cap else firstValidMatch ps url
    | none => firstValidMatch ps url

/-- Model of extractTransactionId from the source: the three patterns, in
source order, run through the first-valid-match loop. -/
def extractTransactionId (url : List Char) : Option (List Char) :=
  firstValidMatch [findHostPat litArweaveNet, findHostPat litArIo,
    matchTrailing43] url

/-- Spec-side chain step following the wording of section 4.1 of the spec:
if the pattern matched and its capture passes the validity check, return the
capture, otherwise continue with the rest of the chain. -/
def tryValid (m : Option (List Char)) (k : Option (List Char)) :
    Option (List Char) :=
  match m with
  | some cap => if isValidArweaveId cap then some cap else k
  | none => k

/-- Spec-side definition of extractContentReference written from the words
of section 4.1 of the spec: try the arweave.net pattern, then the ar.io
pattern, then the trailing-segment pattern, in this order, and return the
captured segment of the first pattern that matches and whose capture passes
the validity check; none if no pattern matches. -/
def extractContentReferenceSpec (url : List Char) : Option (List Char) :=
  tryValid (findHostPat litArweaveNet url)
    (tryValid (findHostPat litArIo url)
      (tryValid (matchTrailing43 url) none))

/-- Model of the JavaScript string-or-default idiom (value || fallback): a
missing value and an empty string both fall back to the default. -/
def jsOrString (v : Option String) (d : String) : String :=
  match v with
  | some s => if s = "" then d else s
  | none => d

/-- Registry entry as consumed by getArnsNames: the processId and the
optional undername field the source reads off each record. -/
structure ArnsRecord where
  processId : String
  undername : Option String
deriving DecidableEq, Repr

/-- Model of the ArnsName interface from the source; the undername field is
always set by the code that builds values of it. -/
structure ArnsName where
  name : String
  processId : String
  undername : String
deriving DecidableEq, Repr

/-- Ownership metadata returned by the per-entry ANT getInfo call; only the
Owner field is consulted. -/
structure AntInfo where
  Owner : String
deriving DecidableEq, Repr

/-- Model of the per-entry scan loop of getArnsNames: for each registry
entry, query the ANT contract for its info (none models a thrown per-entry
lookup, which the source catches and skips); keep the entry exactly when the
reported Owner equals the wallet address. -/
def getArnsNamesScan (getInfo : String → Option AntInfo) (walletAddress : String) :
    List (String × ArnsRecord) → List ArnsName
  | [] => []
  | (name, record) :: rest =>
    match getInfo record.processId with
    | some antInfo =>
      if antInfo.Owner = walletAddress then
        { name := name, processId := record.processId,
          undername := jsOrString record.undername "@" } ::
          getArnsNamesScan getInfo walletAddress rest
      else getArnsNamesScan getInfo walletAddress rest
    | none => getArnsNamesScan getInfo walletAddress rest

/-- Mock list returned by the development fallback of getArnsNames. -/
def mockArnsNames : List ArnsName :=
  [{ name := "example-arns", processId := "mock-process-id-1234567890abcdef",
     undername := "@" },
   { name := "test-domain", processId := "mock-process-id-abcdef1234567890",
     undername := "www" }]

/-- Model of getArnsNames: the initial full-registry fetch is an oracle that
either yields the record set or throws; on success the ownership scan runs
(per-entry failures are swallowed inside the scan); on a thrown fetch the
development fallback returns the mock list when devMode is set, otherwise
the fixed failure message is thrown. -/
def getArnsNames (fetchOutcome : Except String (List (String × ArnsRecord)))
    (getInfo : String → Option AntInfo) (devMode : Bool)
    (walletAddress : String) : Except String (List ArnsName) :=
  match fetchOutcome with
  | Except.ok entries =>
    Except.ok (getArnsNamesScan getInfo walletAddress entries)
  | Except.error _ =>
    if devMode then Except.ok mockArnsNames
    else Except.error "Failed to fetch ARNS names. Please try again."

/-- Result object of the ANT setUndernameRecord call; the id field may be
absent. -/
structure SubmitResult where
  id : Option String
deriving DecidableEq, Repr

/-- Oracles for the external effects of migrateToArns: wallet presence, the
contract submission (keyed by the undername and transaction id the source
passes to it), the registry re-fetch used for name resolution, and the
NODE_ENV development flag. -/
structure MigrateEnv where
  walletAvailable : Bool
  submit : String → String → Except String SubmitResult
  registry : Except String (List (String × String))
  devMode : Bool

/-- Model of the final URL construction of migrateToArns: the root undername
(the at-sign or the empty string) maps to the bare name under ar.io,
anything else is prefixed with an underscore separator. -/
def formatArnsUrl (undername arnsName : String) : String :=
  if undername = "@" ∨ undername = "" then
    "https://" ++ arnsName ++ ".ar.io"
  else "https://" ++ undername ++ "_" ++ arnsName ++ ".ar.io"

/-- Model of the try block of migrateToArns: extract the trailing path
segment (throwing the invalid-URL message when the pattern has no match),
require the wallet, submit the undername update, re-fetch the registry, scan
it for the entry whose processId matches, and format the result; the
transaction id of the result falls back to the pending marker through the
string-or-default idiom. -/
def migrateTryBody (env : MigrateEnv) (processId undername arweaveUrl : String) :
    Except String (String × String) :=
  match trailingSegMatch arweaveUrl.data with
  | none => Except.error "Invalid Arweave URL format"
  | some tid =>
    if env.walletAvailable then
      match env.submit undername (String.mk tid) with
      | Except.ok result =>
        match env.registry with
        | Except.ok records =>
          match records.find? (fun p => p.2 = processId) with
          | some (arnsName, _) =>
            if arnsName = "" then
              Except.error "Could not find ARNS name for the given process ID"
            else
              Except.ok (formatArnsUrl undername arnsName,
                jsOrString result.id "pending")
          | none =>
            Except.error "Could not find ARNS name for the given process ID"
        | Except.error e => Except.error e
      | Except.error e => Except.error e
    else Except.error "ArConnect wallet not found"

/-- Mock result returned by the development fallback of migrateToArns. -/
def mockMigrateResult (undername : String) : String × String :=
  ((if undername = "@" then "https://example-arns.ar.io"
    else "https://" ++ undername ++ "_example-arns.ar.io"),
   "mock-migration-tx-id")

/-- Model of migrateToArns: the try block wrapped in the catch that, in
development mode, swallows every error and returns the mock result, and
otherwise rethrows with the migration-failed prefix. -/
def migrateToArns (env : MigrateEnv) (processId undername arweaveUrl : String) :
    Except String (String × String) :=
  match migrateTryBody env processId undername arweaveUrl with
  | Except.ok r => Except.ok r
  | Except.error e =>
    if env.devMode then Except.ok (mockMigrateResult undername)
    else Except.error ("Migration failed: " ++ e)

end ArnsUtils

namespace ArnsPage

open ArnsUtils

/-- Model of the form-level URL check of handleMigration: the anchored regex
over https, a nonempty id-class subdomain, the arweave.net host, and a
nonempty id-class path segment ending the string.  Greedy matching of the
id-class runs is deterministic here because the characters that follow each
run in the pattern are outside the class. -/
def arweaveRegexTest (s : List Char) : Bool :=
  match matchLitAt ("https://").data s with
  | some r1 =>
    match takeMaxIdRun r1 with
    | (a, r2) =>
      if a.isEmpty then false
      else
        match matchLitAt (".arweave.net/").data r2 with
        | some r3 =>
          match takeMaxIdRun r3 with
          | (b, r4) => !b.isEmpty && r4.isEmpty
        | none => false
  | none => false

end ArnsPage

namespace ArnsUtils

theorem matchLitAt_append (lit r : List Char) :
    matchLitAt lit (lit ++ r) = some r := by
  induction lit with
  | nil => rfl
  | cons p ps ih => simp [matchLitAt, ih]

theorem matchLitAt_eq_some (lit s r : List Char)
    (h : matchLitAt lit s = some r) : s = lit ++ r := by
  induction lit generalizing s with
  | nil =>
    simp [matchLitAt] at h
    simp [h]
  | cons p ps ih =>
    cases s with
    | nil => simp [matchLitAt] at h
    | cons c cs =>
      by_cases hc : c = p
      · subst hc
        simp [matchLitAt] at h
        simp [ih cs h]
      · simp [matchLitAt, hc] at h

theorem takeIdRun_append_exact (n : Nat) (r rest : List Char)
    (hlen : r.length = n) (hall : r.all isIdChar = true) :
    takeIdRun n (r ++ rest) = some (r, rest) := by
  induction r generalizing n with
  | nil =>
    subst hlen
    rfl
  | cons c cs ih =>
    subst hlen
    simp only [List.all_cons, Bool.and_eq_true] at hall
    simp [takeIdRun, hall.1, ih cs.length rfl hall.2]

theorem matchLitAt_none_of_allId (lit l : List Char) (c : Char)
    (hmem : c ∈ lit) (hc : isIdChar c = false) (hall : l.all isIdChar = true) :
    matchLitAt lit l = none := by
  induction lit generalizing l with
  | nil => simp at hmem
  | cons p ps ih =>
    cases l with
    | nil => rfl
    | cons d ds =>
      simp only [List.all_cons, Bool.and_eq_true] at hall
      by_cases hd : d = p
      · subst hd
        rcases List.mem_cons.mp hmem with hcp | hcp
        · rw [hcp] at hc
          rw [hall.1] at hc
          exact absurd hc (by simp)
        · simp [matchLitAt, ih ds hcp hall.2]
      · simp [matchLitAt, hd]

theorem findHostPat_cons (lit : List Char) (c : Char) (l : List Char) :
    findHostPat lit (c :: l) =
      match matchHostPatAt lit (c :: l) with
      | some run => some run
      | none => findHostPat lit l := rfl

theorem matchHostPatAt_none_of_head_ne (p : Char) (ps : List Char) (c : Char)
    (l : List Char) (h : c ≠ p) :
    matchHostPatAt (p :: ps) (c :: l) = none := by
  simp [matchHostPatAt, matchLitAt, h]

theorem findHostPat_cons_of_head_ne (p : Char) (ps : List Char) (c : Char)
    (l : List Char) (h : c ≠ p) :
    findHostPat (p :: ps) (c :: l) = findHostPat (p :: ps) l := by
  rw [findHostPat_cons, matchHostPatAt_none_of_head_ne p ps c l h]

theorem findHostPat_none_of_allId (lit l : List Char) (c : Char)
    (hmem : c ∈ lit) (hc : isIdChar c = false) (hall : l.all isIdChar = true) :
    findHostPat lit l = none := by
  induction l with
  | nil => rfl
  | cons d ds ih =>
    simp only [List.all_cons, Bool.and_eq_true] at hall
    rw [findHostPat_cons]
    rw [show matchHostPatAt lit (d :: ds) = none from ?_]
    · exact ih hall.2
    · unfold matchHostPatAt
      rw [matchLitAt_none_of_allId lit (d :: ds) c hmem hc
        (by simp [hall.1, hall.2])]

theorem matchHostPatAt_append (lit r : List Char) (hlen : r.length = 43)
    (hall : r.all isIdChar = true) :
    matchHostPatAt lit (lit ++ r) = some r := by
  have ht : takeIdRun 43 r = some (r, []) := by
    have := takeIdRun_append_exact 43 r [] hlen hall
    rwa [List.append_nil] at this
  unfold matchHostPatAt
  rw [matchLitAt_append]
  simp [ht]

theorem takeMaxIdRun_append_stop (a : List Char) (c : Char) (r : List Char)
    (hall : a.all isIdChar = true) (hc : isIdChar c = false) :
    takeMaxIdRun (a ++ c :: r) = (a, c :: r) := by
  induction a with
  | nil => simp [takeMaxIdRun, hc]
  | cons d ds ih =>
    simp only [List.all_cons, Bool.and_eq_true] at hall
    simp [takeMaxIdRun, hall.1, ih hall.2]

theorem takeMaxIdRun_all (a : List Char) (hall : a.all isIdChar = true) :
    takeMaxIdRun a = (a, []) := by
  induction a with
  | nil => rfl
  | cons d ds ih =>
    simp only [List.all_cons, Bool.and_eq_true] at hall
    simp [takeMaxIdRun, hall.1, ih hall.2]

theorem takeMaxIdRun_eq (s : List Char) : ∀ a r, takeMaxIdRun s = (a, r) →
    s = a ++ r ∧ a.all isIdChar = true ∧
      ∀ c rs, r = c :: rs → isIdChar c = false := by
  induction s with
  | nil =>
    intro a r h
    simp [takeMaxIdRun] at h
    simp [h.1, h.2]
  | cons d ds ih =>
    intro a r h
    by_cases hd : isIdChar d
    · rcases hrec : takeMaxIdRun ds with ⟨run, rem⟩
      simp only [takeMaxIdRun, hd, if_true, hrec, Prod.mk.injEq] at h
      obtain ⟨h1, h2⟩ := h
      subst h1
      subst h2
      obtain ⟨he, hall, hstop⟩ := ih run rem hrec
      exact ⟨by simp [he], by simp [hd, hall], hstop⟩
    · simp only [takeMaxIdRun, hd, Bool.false_eq_true, if_false,
        Prod.mk.injEq] at h
      obtain ⟨h1, h2⟩ := h
      subst h1
      subst h2
      refine ⟨rfl, rfl, ?_⟩
      intro c rs hcons
      cases hcons
      simpa using hd

theorem findHostPat_prefix_matches (lit r : List Char) (hne : lit ≠ [])
    (hlen : r.length = 43) (hall : r.all isIdChar = true) :
    findHostPat lit (lit ++ r) = some r := by
  cases lit with
  | nil => exact absurd rfl hne
  | cons p ps =>
    rw [List.cons_append, findHostPat_cons, ← List.cons_append,
      matchHostPatAt_append _ _ hlen hall]

theorem findHostPat_litArweaveNet_roundtrip (r : List Char)
    (hlen : r.length = 43) (hall : r.all isIdChar = true) :
    findHostPat litArweaveNet (("https://x.arweave.net/").data ++ r) = some r := by
  have h1 : findHostPat litArweaveNet (("https://x.arweave.net/").data ++ r) =
      findHostPat litArweaveNet (litArweaveNet ++ r) := rfl
  rw [h1]
  exact findHostPat_prefix_matches litArweaveNet r (by decide) hlen hall

theorem findHostPat_litArIo_roundtrip (r : List Char)
    (hlen : r.length = 43) (hall : r.all isIdChar = true) :
    findHostPat litArIo (("https://x.ar.io/").data ++ r) = some r := by
  have h1 : findHostPat litArIo (("https://x.ar.io/").data ++ r) =
      findHostPat litArIo (litArIo ++ r) := rfl
  rw [h1]
  exact findHostPat_prefix_matches litArIo r (by decide) hlen hall

theorem findHostPat_litArweaveNet_ario_none (r : List Char)
    (hall : r.all isIdChar = true) :
    findHostPat litArweaveNet (("https://x.ar.io/").data ++ r) = none := by
  have h1 : findHostPat litArweaveNet (("https://x.ar.io/").data ++ r) =
      findHostPat litArweaveNet r := rfl
  rw [h1]
  exact findHostPat_none_of_allId _ _ '.' (by decide) (by decide) hall

theorem firstValidMatch_valid (ps : List (List Char → Option (List Char)))
    (url r : List Char) (h : firstValidMatch ps url = some r) :
    isValidArweaveId r = true := by
  induction ps with
  | nil => simp [firstValidMatch] at h
  | cons p pr ih =>
    unfold firstValidMatch at h
    rcases hp : p url with _ | cap
    · simp only [hp] at h
      exact ih h
    · simp only [hp] at h
      by_cases hv : isValidArweaveId cap
      · rw [if_pos hv] at h
        cases h
        exact hv
      · rw [if_neg hv] at h
        exact ih h

theorem getArnsNamesScan_eq_filterMap (getInfo : String → Option AntInfo)
    (addr : String) (entries : List (String × ArnsRecord)) :
    getArnsNamesScan getInfo addr entries = entries.filterMap (fun e =>
      match getInfo e.2.processId with
      | some info =>
        if info.Owner = addr then
          some { name := e.1, processId := e.2.processId,
                 undername := jsOrString e.2.undername "@" }
        else none
      | none => none) := by
  induction entries with
  | nil => rfl
  | cons e rest ih =>
    rcases e with ⟨name, record⟩
    rcases hg : getInfo record.processId with _ | info
    · simp only [getArnsNamesScan, hg, List.filterMap_cons]
      exact ih
    · by_cases ho : info.Owner = addr
      · simp [getArnsNamesScan, hg, ho, ih]
      · simp [getArnsNamesScan, hg, ho, ih]

/-- Claim C1: for every registry snapshot and queried address, the ownership
scan of getArnsNames keeps exactly the entries whose reported Owner
string-equals the queried address, skipping entries whose per-entry lookup
throws while continuing with the rest; and on the spec example of three
records (one owned, one foreign, one throwing) the result is exactly the
owned one. -/
theorem getArnsNames_ownership_filter :
    (∀ (getInfo : String → Option AntInfo) (devMode : Bool) (addr : String)
      (entries : List (String × ArnsRecord)),
      getArnsNames (Except.ok entries) getInfo devMode addr =
        Except.ok (entries.filterMap (fun e =>
          match getInfo e.2.processId with
          | some info =>
            if info.Owner = addr then
              some { name := e.1, processId := e.2.processId,
                     undername := jsOrString e.2.undername "@" }
            else none
          | none => none))) ∧
    getArnsNamesScan
      (fun pid => if pid = "pA" then some { Owner := "X" }
        else if pid = "pB" then some { Owner := "Y" } else none) "X"
      [("A", { processId := "pA", undername := none }),
       ("B", { processId := "pB", undername := none }),
       ("C", { processId := "pC", undername := none })] =
      [{ name := "A", processId := "pA", undername := "@" }] := by
  constructor
  · intro getInfo devMode addr entries
    simp only [getArnsNames]
    rw [getArnsNamesScan_eq_filterMap]
  · rfl

/-- Claim C2 counterexample: on the URL https://x.arweave.net/abc the
section 4.1 extraction returns none, yet migrateToArns does not fail with
the invalid-URL error: it submits the trailing segment abc and succeeds. -/
theorem migrateToArns_extraction_differs :
    migrateToArns
      { walletAvailable := true,
        submit := fun _ tid => Except.ok { id := some tid },
        registry := Except.ok [("name1", "p1")],
        devMode := false } "p1" "@" "https://x.arweave.net/abc" =
      Except.ok ("https://name1.ar.io", "abc") ∧
    extractTransactionId ("https://x.arweave.net/abc").data = none := by
  exact ⟨rfl, rfl⟩

/-- Claim C2 (amended): migrateToArns extracts and submits the capture of
the generic trailing-segment pattern (a nonempty run of id-class characters
after the final slash, with no 43-character length requirement), not the
section 4.1 extraction; outside development mode the invocation fails with
the invalid-URL error exactly when that trailing pattern has no match.  The
probing submit oracle makes the submitted segment observable in the error
message. -/
theorem migrateToArns_trailing_extraction (url p u : String) :
    (trailingSegMatch url.data = none →
      migrateToArns
        { walletAvailable := true,
          submit := fun _ tid => Except.error ("probe:" ++ tid),
          registry := Except.ok [], devMode := false } p u url =
        Except.error "Migration failed: Invalid Arweave URL format") ∧
    (∀ t, trailingSegMatch url.data = some t →
      migrateToArns
        { walletAvailable := true,
          submit := fun _ tid => Except.error ("probe:" ++ tid),
          registry := Except.ok [], devMode := false } p u url =
        Except.error ("Migration failed: " ++ ("probe:" ++ String.mk t))) := by
  constructor
  · intro h
    simp [migrateToArns, migrateTryBody, h]
  · intro t h
    simp [migrateToArns, migrateTryBody, h]

theorem migrateToArns_trailing_extraction_witness :
    trailingSegMatch ("https://x.arweave.net/abc").data = some ['a', 'b', 'c'] ∧
    migrateToArns
      { walletAvailable := true,
        submit := fun _ tid => Except.error ("probe:" ++ tid),
        registry := Except.ok [], devMode := false } "p1" "@"
      "https://x.arweave.net/abc" =
      Except.error ("Migration failed: " ++ ("probe:" ++ String.mk ['a', 'b', 'c'])) :=
  ⟨by decide,
    (migrateToArns_trailing_extraction "https://x.arweave.net/abc" "p1" "@").2
      ['a', 'b', 'c'] (by decide)⟩

/-- Claim C3 counterexample: in development mode a throwing submission step
does not end the invocation in a failure: migrateToArns swallows the error
and returns the mock migration result. -/
theorem migrateToArns_devmode_submit_result :
    migrateToArns
      { walletAvailable := true,
        submit := fun _ _ => Except.error "network error",
        registry := Except.ok [("name1", "p1")], devMode := true }
      "p1" "@" "https://x.arweave.net/abc" =
      Except.ok ("https://example-arns.ar.io", "mock-migration-tx-id") := rfl

/-- Claim C3 (amended): outside development mode, whenever the submission
step throws, migrateToArns ends in the failure state with the thrown message
under the migration-failed prefix and produces no migration result. -/
theorem migrateToArns_submit_failure_terminal (env : MigrateEnv)
    (p u url msg : String) (hdev : env.devMode = false)
    (hw : env.walletAvailable = true)
    (hs : env.submit = fun _ _ => Except.error msg)
    (ht : trailingSegMatch url.data ≠ none) :
    migrateToArns env p u url =
      Except.error ("Migration failed: " ++ msg) := by
  rcases htm : trailingSegMatch url.data with _ | t
  · exact absurd htm ht
  · simp [migrateToArns, migrateTryBody, htm, hw, hs, hdev]

theorem migrateToArns_submit_failure_terminal_witness :
    trailingSegMatch ("https://x.arweave.net/abc").data ≠ none ∧
    migrateToArns
      { walletAvailable := true, submit := fun _ _ => Except.error "boom",
        registry := Except.ok [("name1", "p1")], devMode := false }
      "p1" "@" "https://x.arweave.net/abc" =
      Except.error ("Migration failed: " ++ "boom") :=
  ⟨by decide,
    migrateToArns_submit_failure_terminal
      { walletAvailable := true, submit := fun _ _ => Except.error "boom",
        registry := Except.ok [("name1", "p1")], devMode := false }
      "p1" "@" "https://x.arweave.net/abc" "boom" rfl rfl rfl (by decide)⟩

/-- Claim C4 counterexample: in development mode a failed registry fetch
does not raise the failure: getArnsNames returns the mock list of names. -/
theorem getArnsNames_devmode_mock :
    getArnsNames (Except.error "network down") (fun _ => none) true "X" =
      Except.ok mockArnsNames := rfl

/-- Claim C4 (amended): outside development mode, getArnsNames fails with
the fixed directory-unavailable message exactly when the initial
full-registry fetch throws, and a completed fetch always yields a list of
name records (never that failure). -/
theorem getArnsNames_directory_unavailable :
    (∀ (g : String → Option AntInfo) (addr msg : String),
      getArnsNames (Except.error msg) g false addr =
        Except.error "Failed to fetch ARNS names. Please try again.") ∧
    (∀ (g : String → Option AntInfo) (dev : Bool) (addr : String)
      (entries : List (String × ArnsRecord)),
      getArnsNames (Except.ok entries) g dev addr =
        Except.ok (getArnsNamesScan g addr entries)) := by
  exact ⟨fun _ _ _ => rfl, fun _ _ _ _ => rfl⟩

/-- Claim C5: extractTransactionId coincides with the spec-side section 4.1
description: try the arweave.net pattern, the ar.io pattern, then the
trailing pattern in this order, and return the captured segment of the
first pattern that matches and whose capture passes the validity check,
none if no pattern matches. -/
theorem extractTransactionId_refines_spec (url : List Char) :
    extractTransactionId url = extractContentReferenceSpec url := rfl

/-- Claim C9: every non-none value returned by extractTransactionId passes
isValidArweaveId: it is exactly 43 characters over the id alphabet. -/
theorem extractTransactionId_valid (url r : List Char)
    (h : extractTransactionId url = some r) : isValidArweaveId r = true :=
  firstValidMatch_valid _ url r h

theorem extractTransactionId_valid_witness :
    extractTransactionId
      (("https://x.arweave.net/").data ++ List.replicate 43 'A') =
      some (List.replicate 43 'A') ∧
    isValidArweaveId (List.replicate 43 'A') = true :=
  ⟨by decide,
    extractTransactionId_valid
      (("https://x.arweave.net/").data ++ List.replicate 43 'A')
      (List.replicate 43 'A') (by decide)⟩

/-- Claim C6: round-trip: for every 43-character reference over the id
alphabet and both hosts, extracting from the full URL built over that host
returns exactly the reference. -/
theorem extractTransactionId_roundtrip (r : List Char) (hlen : r.length = 43)
    (hall : r.all isIdChar = true) :
    extractTransactionId (("https://x.arweave.net/").data ++ r) = some r ∧
    extractTransactionId (("https://x.ar.io/").data ++ r) = some r := by
  have hvalid : isValidArweaveId r = true := by
    simp [isValidArweaveId, hlen, hall]
  constructor
  · simp only [extractTransactionId, firstValidMatch,
      findHostPat_litArweaveNet_roundtrip r hlen hall, hvalid, if_true]
  · simp only [extractTransactionId, firstValidMatch,
      findHostPat_litArweaveNet_ario_none r hall,
      findHostPat_litArIo_roundtrip r hlen hall, hvalid, if_true]

theorem extractTransactionId_roundtrip_witness :
    (List.replicate 43 'A').length = 43 ∧
    (List.replicate 43 'A').all isIdChar = true ∧
    (extractTransactionId
        (("https://x.arweave.net/").data ++ List.replicate 43 'A') =
        some (List.replicate 43 'A') ∧
      extractTransactionId
        (("https://x.ar.io/").data ++ List.replicate 43 'A') =
        some (List.replicate 43 'A')) :=
  ⟨by decide, by decide,
    extractTransactionId_roundtrip (List.replicate 43 'A') (by decide)
      (by decide)⟩

/-- Claim C8: on a successful migration the result URL is formatted
deterministically from the resolved name and the sub-name (root sub-name,
the at-sign or the empty string, gives the bare ar.io name, anything else
the underscore-joined form), and the transaction id of the result is the
identifier the submission step reported, or the literal pending marker when
it reported none (or an empty one). -/
theorem migrateToArns_success_format (env : MigrateEnv) (p u url : String)
    (t : List Char) (idv : Option String) (records : List (String × String))
    (nm pid2 : String)
    (hw : env.walletAvailable = true)
    (ht : trailingSegMatch url.data = some t)
    (hs : env.submit u (String.mk t) = Except.ok { id := idv })
    (hr : env.registry = Except.ok records)
    (hf : records.find? (fun e => e.2 = p) = some (nm, pid2))
    (hnm : nm ≠ "") :
    migrateToArns env p u url =
      Except.ok
        ((if u = "@" ∨ u = "" then "https://" ++ nm ++ ".ar.io"
          else "https://" ++ u ++ "_" ++ nm ++ ".ar.io"),
         (match idv with
          | some i => if i = "" then "pending" else i
          | none => "pending")) := by
  simp only [migrateToArns, migrateTryBody, ht, hw, hs, hr, hf, hnm,
    formatArnsUrl, jsOrString, if_true, if_false]
  rcases idv with _ | i <;> simp [hnm]

theorem migrateToArns_success_format_witness :
    trailingSegMatch ("https://sub.arweave.net/abc").data =
      some ['a', 'b', 'c'] ∧
    migrateToArns
      { walletAvailable := true,
        submit := fun _ _ => Except.ok { id := some "T1" },
        registry := Except.ok [("bar", "C1")], devMode := false }
      "C1" "@" "https://sub.arweave.net/abc" =
      Except.ok ("https://bar.ar.io", "T1") :=
  ⟨by decide,
    migrateToArns_success_format
      { walletAvailable := true,
        submit := fun _ _ => Except.ok { id := some "T1" },
        registry := Except.ok [("bar", "C1")], devMode := false }
      "C1" "@" "https://sub.arweave.net/abc" ['a', 'b', 'c'] (some "T1")
      [("bar", "C1")] "bar" "C1" rfl (by decide) rfl rfl (by decide)
      (by decide)⟩

/-- Claim C10: on a URL whose last path segment has 44 id-class characters,
extractTransactionId returns the first 43 characters of that segment rather
than none, because the host-qualified pattern is not anchored at the end of
the segment. -/
theorem extractTransactionId_long_segment_prefix :
    extractTransactionId
      (("https://x.arweave.net/").data ++ ('Q' :: List.replicate 43 'A')) =
      some ('Q' :: List.replicate 42 'A') := by decide

end ArnsUtils

namespace ArnsPage

open ArnsUtils

/-- Claim C7: the form-level content-URL check accepts a string exactly when
it is https followed by a nonempty id-class subdomain, the arweave.net
host, and a nonempty id-class path segment ending the string; in particular
the accepted and rejected spec examples behave as stated. -/
theorem arweaveRegexTest_full_pattern :
    (∀ s : List Char, arweaveRegexTest s = true ↔
      ∃ a b : List Char, a ≠ [] ∧ b ≠ [] ∧ a.all isIdChar = true ∧
        b.all isIdChar = true ∧
        s = ("https://").data ++ a ++ (".arweave.net/").data ++ b) ∧
    arweaveRegexTest ("https://foo.arweave.net/abc123").data = true ∧
    arweaveRegexTest ("http://foo.arweave.net/abc123").data = false ∧
    arweaveRegexTest ("https://foo.arweave.net/").data = false := by
  refine ⟨?_, by decide, by decide, by decide⟩
  intro s
  constructor
  · intro h
    unfold arweaveRegexTest at h
    rcases h1 : matchLitAt ("https://").data s with _ | r1
    · simp [h1] at h
    rcases h2 : takeMaxIdRun r1 with ⟨a, r2⟩
    rcases a with _ | ⟨c, cs⟩
    · simp [h1, h2] at h
    rcases h3 : matchLitAt (".arweave.net/").data r2 with _ | r3
    · simp [h1, h2, h3] at h
    rcases h4 : takeMaxIdRun r3 with ⟨b, r4⟩
    simp only [h1, h2, h3, h4, List.isEmpty_cons, Bool.false_eq_true,
      if_false, Bool.and_eq_true, Bool.not_eq_eq_eq_not, Bool.not_true,
      List.isEmpty_eq_true] at h
    obtain ⟨hb, hr4⟩ := h
    obtain hs1 := matchLitAt_eq_some _ _ _ h1
    obtain ⟨he2, ha2, _⟩ := takeMaxIdRun_eq r1 (c :: cs) r2 h2
    obtain hs3 := matchLitAt_eq_some _ _ _ h3
    obtain ⟨he4, hb4, _⟩ := takeMaxIdRun_eq r3 b r4 h4
    refine ⟨c :: cs, b, by simp, ?_, ha2, hb4, ?_⟩
    · intro hbnil
      rw [hbnil] at hb
      simp at hb
    · rw [hs1, he2, hs3, he4, hr4, List.append_nil]
      simp [List.append_assoc]
  · rintro ⟨a, b, ha, hb, haall, hball, rfl⟩
    rcases a with _ | ⟨c, cs⟩
    · exact absurd rfl ha
    rcases b with _ | ⟨d, ds⟩
    · exact absurd rfl hb
    have e3 : takeMaxIdRun ((c :: cs) ++ ((".arweave.net/").data ++ (d :: ds))) =
        (c :: cs, (".arweave.net/").data ++ (d :: ds)) :=
      takeMaxIdRun_append_stop (c :: cs) '.'
        (("arweave.net/").data ++ (d :: ds)) haall (by decide)
    have e4 : takeMaxIdRun (d :: ds) = (d :: ds, []) := takeMaxIdRun_all _ hball
    unfold arweaveRegexTest
    simp only [List.append_assoc, matchLitAt_append, e3, e4,
      List.isEmpty_cons, Bool.false_eq_true, if_false, matchLitAt_append]
    simp

end ArnsPage
